import Mathlib

/-
Verification of the fingerprint engine of the ml4chem repository, as a shallow
embedding of src/ml4chem/fingerprints/gaussian.py (and, for the refinement
claim, of the older src/mlchem/fingerprints/gaussian.py).

Conventions of the embedding:
  * numpy float arithmetic is modelled over the reals;
  * a numpy 3-vector is the structure Vec3, np.linalg.norm is norm3, np.dot
    on 3-vectors is dot3;
  * Python lists indexed inside loops are modelled with List.getD (all the
    modelled loops index within bounds whenever the caller supplies lists of
    matching lengths, which the callers in the source do);
  * the cutoff function object is a real-valued function parameter;
  * Python exceptions are an explicit PyErr value inside Except.
-/

/-- A 3-component Cartesian vector (a numpy array of three floats). -/
structure Vec3 where
  x : ℝ
  y : ℝ
  z : ℝ

instance : Inhabited Vec3 := ⟨⟨0, 0, 0⟩⟩

/-- Componentwise subtraction of numpy 3-vectors. -/
noncomputable def vsub (a b : Vec3) : Vec3 := ⟨a.x - b.x, a.y - b.y, a.z - b.z⟩

/-- np.linalg.norm of a 3-vector. -/
noncomputable def norm3 (a : Vec3) : ℝ := Real.sqrt (a.x ^ 2 + a.y ^ 2 + a.z ^ 2)

/-- np.dot of two 3-vectors. -/
noncomputable def dot3 (a b : Vec3) : ℝ := a.x * b.x + a.y * b.y + a.z * b.z

/-- Python sorted on a two-element list of strings (ascending, stable). -/
def pySorted2 (a b : String) : List String := if b < a then [b, a] else [a, b]

/-- calculate_G2 of src/ml4chem/fingerprints/gaussian.py (lines 743-804).
The n_numbers argument is accepted and ignored, exactly as in the source. -/
noncomputable def calculate_G2 (n_numbers : List ℕ) (neighborsymbols : List String)
    (neighborpositions : List Vec3) (center_symbol : String) (eta cutoff : ℝ)
    (cutofffxn : ℝ → ℝ) (Ri : Vec3) (normalized : Bool) : ℝ :=
  let _ := n_numbers
  let num_neighbors := neighborpositions.length
  let Rc : ℝ := if normalized then cutoff else 1
  (List.range num_neighbors).foldl
    (fun feature count =>
      let symbol := neighborsymbols.getD count ""
      let Rj := neighborpositions.getD count default
      if symbol = center_symbol then
        let Rij := norm3 (vsub Rj Ri)
        feature + Real.exp (-eta * Rij ^ 2 / Rc ^ 2) * cutofffxn Rij
      else feature)
    0

/-- calculate_G3 of src/ml4chem/fingerprints/gaussian.py (lines 807-875).
The n_numbers argument is accepted and ignored, exactly as in the source. -/
noncomputable def calculate_G3 (n_numbers : List ℕ) (neighborsymbols : List String)
    (neighborpositions : List Vec3) (G_elements : List String) (gamma zeta eta cutoff : ℝ)
    (cutofffxn : ℝ → ℝ) (Ri : Vec3) : ℝ :=
  let _ := n_numbers
  let Rc := cutoff
  let counts := List.range neighborpositions.length
  (counts.foldl
    (fun feature j =>
      (counts.drop (j + 1)).foldl
        (fun feature k =>
          let els := pySorted2 (neighborsymbols.getD j "") (neighborsymbols.getD k "")
          if els ≠ G_elements then feature
          else
            let Rij_vector := vsub (neighborpositions.getD j default) Ri
            let Rij := norm3 Rij_vector
            let Rik_vector := vsub (neighborpositions.getD k default) Ri
            let Rik := norm3 Rik_vector
            let Rjk_vector :=
              vsub (neighborpositions.getD k default) (neighborpositions.getD j default)
            let Rjk := norm3 Rjk_vector
            let cos_theta_ijk := dot3 Rij_vector Rik_vector / Rij / Rik
            let term := (1 + gamma * cos_theta_ijk) ^ zeta
            let term := term * Real.exp (-eta * (Rij ^ 2 + Rik ^ 2 + Rjk ^ 2) / Rc ^ 2)
            let term := term * cutofffxn Rij
            let term := term * cutofffxn Rik
            let term := term * cutofffxn Rjk
            feature + term)
        feature)
    0) * (2 : ℝ) ^ (1 - zeta)

/-- calculate_G4 of src/ml4chem/fingerprints/gaussian.py (lines 878-948).
The n_numbers argument is accepted and ignored, exactly as in the source. -/
noncomputable def calculate_G4 (n_numbers : List ℕ) (neighborsymbols : List String)
    (neighborpositions : List Vec3) (G_elements : List String) (gamma zeta eta cutoff : ℝ)
    (cutofffxn : ℝ → ℝ) (Ri : Vec3) : ℝ :=
  let _ := n_numbers
  let Rc := cutoff
  let counts := List.range neighborpositions.length
  (counts.foldl
    (fun feature j =>
      (counts.drop (j + 1)).foldl
        (fun feature k =>
          let els := pySorted2 (neighborsymbols.getD j "") (neighborsymbols.getD k "")
          if els ≠ G_elements then feature
          else
            let Rij_vector := vsub (neighborpositions.getD j default) Ri
            let Rij := norm3 Rij_vector
            let Rik_vector := vsub (neighborpositions.getD k default) Ri
            let Rik := norm3 Rik_vector
            let cos_theta_ijk := dot3 Rij_vector Rik_vector / Rij / Rik
            let term := (1 + gamma * cos_theta_ijk) ^ zeta
            let term := term * Real.exp (-eta * (Rij ^ 2 + Rik ^ 2) / Rc ^ 2)
            let term := term * cutofffxn Rij
            let term := term * cutofffxn Rik
            feature + term)
        feature)
    0) * (2 : ℝ) ^ (1 - zeta)

namespace mlchem

/-- calculate_G3 of the older src/mlchem/fingerprints/gaussian.py (lines 617-676),
embedded separately from the ml4chem version so the two can be compared. -/
noncomputable def calculate_G3 (n_numbers : List ℕ) (neighborsymbols : List String)
    (neighborpositions : List Vec3) (G_elements : List String) (gamma zeta eta cutoff : ℝ)
    (cutofffxn : ℝ → ℝ) (Ri : Vec3) : ℝ :=
  let _ := n_numbers
  let Rc := cutoff
  let counts := List.range neighborpositions.length
  (counts.foldl
    (fun feature j =>
      (counts.drop (j + 1)).foldl
        (fun feature k =>
          let els := pySorted2 (neighborsymbols.getD j "") (neighborsymbols.getD k "")
          if els ≠ G_elements then feature
          else
            let Rij_vector := vsub (neighborpositions.getD j default) Ri
            let Rij := norm3 Rij_vector
            let Rik_vector := vsub (neighborpositions.getD k default) Ri
            let Rik := norm3 Rik_vector
            let Rjk_vector :=
              vsub (neighborpositions.getD k default) (neighborpositions.getD j default)
            let Rjk := norm3 Rjk_vector
            let cos_theta_ijk := dot3 Rij_vector Rik_vector / Rij / Rik
            let term := (1 + gamma * cos_theta_ijk) ^ zeta
            let term := term * Real.exp (-eta * (Rij ^ 2 + Rik ^ 2 + Rjk ^ 2) / Rc ^ 2)
            let term := term * cutofffxn Rij
            let term := term * cutofffxn Rik
            let term := term * cutofffxn Rjk
            feature + term)
        feature)
    0) * (2 : ℝ) ^ (1 - zeta)

end mlchem

/-- A cache dictionary key. The features file is serialized with msgpack, so a
loaded kernel-method record has byte-string keys, while requested structure
ids are plain strings; the two kinds never compare equal, exactly as bytes
and str never compare equal in Python. -/
inductive CKey where
  | str (s : String)
  | bytes (s : String)
deriving DecidableEq, Repr

/-- A Python exception surfaced by the modelled code. -/
inductive PyErr where
  | typeError
  | keyError (k : CKey)
  | unboundLocal (name : String)
  | attributeError (name : String)
deriving DecidableEq, Repr

/-- One entry of the GP symmetry-function parameter table: a Python dict with
a "type" tag and the parameter fields used by that type (unused fields
default to neutral values, as absent dict keys). -/
structure GPdict where
  type : String
  symbol : String := ""
  symbols : List String := []
  eta : ℝ := 0
  gamma : ℝ := 0
  zeta : ℝ := 0

/-- The spec-evaluation loop of Gaussian.get_atomic_fingerprint
(src/ml4chem/fingerprints/gaussian.py lines 526-575): iterate over the GP
entries for the element of the atom, dispatch on the "type" tag, and store each
computed value in the fingerprint list.  The local Python variable feature is
the Option argument: on an unrecognised tag the source only logs
"not implemented" and does not assign feature, so the assignment
fingerprint[count] = feature stores the value of the previous iteration, or raises
UnboundLocalError when no previous iteration assigned it. -/
noncomputable def fingerprintLoop (cutoff : ℝ) (cutofffxn : ℝ → ℝ) (normalized : Bool)
    (n_numbers : List ℕ) (n_symbols : List String) (neighborpositions : List Vec3)
    (Ri : Vec3) : List GPdict → Option ℝ → Except PyErr (List ℝ)
  | [], _ => .ok []
  | GP :: rest, prevFeature =>
    let feature : Option ℝ :=
      if GP.type = "G2" then
        some (calculate_G2 n_numbers n_symbols neighborpositions GP.symbol GP.eta cutoff
          cutofffxn Ri normalized)
      else if GP.type = "G3" then
        some (calculate_G3 n_numbers n_symbols neighborpositions GP.symbols GP.gamma GP.zeta
          GP.eta cutoff cutofffxn Ri)
      else if GP.type = "G4" then
        some (calculate_G4 n_numbers n_symbols neighborpositions GP.symbols GP.gamma GP.zeta
          GP.eta cutoff cutofffxn Ri)
      else prevFeature
    match feature with
    | Option.none => .error (.unboundLocal "feature")
    | Option.some f =>
      match fingerprintLoop cutoff cutofffxn normalized n_numbers n_symbols neighborpositions
          Ri rest (some f) with
      | .ok fs => .ok (f :: fs)
      | .error e => .error e

/-- Gaussian.get_atomic_fingerprint (src/ml4chem/fingerprints/gaussian.py lines
502-585) for one atom: run the dispatch loop over the GP table of the element
of the atom and, as in the source, return the (symbol, fingerprint) pair when no
preprocessor is configured and the bare fingerprint otherwise.  The n_numbers
list (ase atomic numbers of the neighbors, an external table) is passed as a
placeholder since none of the G functions reads it. -/
noncomputable def get_atomic_fingerprint (cutoff : ℝ) (cutofffxn : ℝ → ℝ) (normalized : Bool)
    (GPs : List GPdict) (symbol : String) (n_symbols : List String)
    (neighborpositions : List Vec3) (Ri : Vec3) (preprocessorIsNone : Bool) :
    Except PyErr (Option String × List ℝ) :=
  let n_numbers : List ℕ := n_symbols.map (fun _ => 0)
  match fingerprintLoop cutoff cutofffxn normalized n_numbers n_symbols neighborpositions Ri
      GPs Option.none with
  | .error e => .error e
  | .ok fingerprint =>
    if preprocessorIsNone then .ok (some symbol, fingerprint) else .ok (none, fingerprint)

/-- np.logspace(start, stop, num): num points whose base-10 exponents are
linearly spaced from start to stop inclusive. -/
noncomputable def np_logspace (start stop : ℝ) (num : ℕ) : List ℝ :=
  (List.range num).map
    (fun i => (10 : ℝ) ^ (start + (i : ℝ) * ((stop - start) / ((num : ℝ) - 1))))

/-- Gaussian.get_symmetry_functions (src/ml4chem/fingerprints/gaussian.py lines
653-701): build the list of GP dicts for one requested type from the given
parameter lists; an unsupported type only logs an error and implicitly
returns None (modelled by Option.none). -/
def get_symmetry_functions (type : String) (symbols : List String) (etas zetas gammas : List ℝ) :
    Option (List GPdict) :=
  let supported_angular_symmetry_functions := ["G3", "G4"]
  if type = "G2" then
    some (etas.flatMap (fun eta => symbols.map (fun symbol => { type := "G2", symbol, eta })))
  else if type ∈ supported_angular_symmetry_functions then
    some (etas.flatMap (fun eta => zetas.flatMap (fun zeta => gammas.flatMap (fun gamma =>
      (List.range symbols.length).flatMap (fun idx1 =>
        (symbols.drop idx1).map (fun sym2 =>
          let pairs := pySorted2 (symbols.getD idx1 "") sym2
          { type := type, symbols := pairs, eta := eta, gamma := gamma, zeta := zeta }))))))
  else Option.none

/-- Gaussian.make_symmetry_functions (src/ml4chem/fingerprints/gaussian.py lines
587-651).  The etas, zetas and gammas parameters are accepted but, exactly as
in the source, the defaults branch rebinds all three locals before any use,
and the non-defaults branch is pass, leaving the GP table empty; so the
supplied values are never read.  Failure of the inner builder (Option.none for
an unsupported angular type, a TypeError in Python) propagates as none. -/
noncomputable def make_symmetry_functions (symbols : List String) (defaults : Bool)
    (etas zetas gammas : Option (List ℝ)) (angular_type : String) :
    Option (List (String × List GPdict)) :=
  let _ := etas
  let _ := zetas
  let _ := gammas
  if defaults then
    symbols.mapM (fun symbol => do
      let etas := np_logspace (Real.logb 10 0.05) (Real.logb 10 5.0) 4
      let radial ← get_symmetry_functions "G2" symbols etas [] []
      let etas := [(0.005 : ℝ)]
      let zetas := [(1 : ℝ), 4]
      let gammas := [(1 : ℝ), -1]
      let angular ← get_symmetry_functions angular_type symbols etas zetas gammas
      pure (symbol, radial ++ angular))
  else some []

/-- The eta parameter of the first entry of the GP table of the first element. -/
def headEta (table : Option (List (String × List GPdict))) : Option ℝ :=
  match table with
  | some ((_, g :: _) :: _) => some g.eta
  | _ => Option.none

/-- Python dict lookup data[k] on an insertion-ordered association list:
some value, or none where Python raises KeyError. -/
def lookupA {V : Type} (l : List (CKey × V)) (k : CKey) : Option V :=
  match l with
  | [] => Option.none
  | (k1, v) :: rest => if k1 = k then some v else lookupA rest k

/-- Python dict assignment d[k] = v on an insertion-ordered association list:
overwrite in place if the key is present, else append. -/
def dictInsert {V : Type} (l : List (CKey × V)) (k : CKey) (v : V) : List (CKey × V) :=
  match l with
  | [] => [(k, v)]
  | (k1, v1) :: rest => if k1 = k then (k1, v) :: rest else (k1, v1) :: dictInsert rest k v

/-- Outcome of the cache-check block of Gaussian.calculate_features
(src/ml4chem/fingerprints/gaussian.py lines 140-162): return the loaded dict
(whole or projected), raise KeyError, return the kernel-method pair, or fall
through towards recomputation. -/
inductive CacheOutcome (V : Type) where
  | ret (d : List (CKey × V))
  | retPair (feature_space reference_space : V)
  | keyError (k : CKey)
  | fallThrough

/-- The projection loop of the overlap branch (lines 154-157): _data = {};
for hash in image_hashes: _data[hash] = data[hash]; return _data.  A missing
key raises KeyError at that point. -/
def projectLoop {V : Type} (cached : List (CKey × V)) :
    List CKey → List (CKey × V) → CacheOutcome V
  | [], acc => .ret acc
  | h :: rest, acc =>
    match lookupA cached h with
    | some v => projectLoop cached rest (dictInsert acc h v)
    | Option.none => .keyError h

/-- The two reserved msgpack byte-string keys of a kernel-method cache file. -/
def svm_cache_keys : List CKey := [CKey.bytes "feature_space", CKey.bytes "reference_space"]

/-- The body of the cache-check block of Gaussian.calculate_features (lines
143-162), for a loaded cache dict and the requested image hashes:
if the two key lists are equal, return the loaded dict; elif any cached key
occurs among the requested hashes, project every requested hash through the
dict (KeyError on a miss); then, if the key list is exactly the two reserved
kernel-method keys, return that pair (note the block never reads the svm
argument); otherwise fall through. -/
def cacheCheckBody {V : Type} (cached : List (CKey × V)) (image_hashes : List CKey) :
    CacheOutcome V :=
  let data_hashes := cached.map Prod.fst
  if image_hashes = data_hashes then
    .ret cached
  else if data_hashes.any (fun i => decide (i ∈ image_hashes)) then
    projectLoop cached image_hashes []
  else if svm_cache_keys = data_hashes then
    match lookupA cached (CKey.bytes "feature_space"),
        lookupA cached (CKey.bytes "reference_space") with
    | some a, some b => .retPair a b
    | _, _ => .keyError (CKey.bytes "feature_space")
  else .fallThrough

/-- Keys-to-entries projection of a cache dict used to state the subset-hit
result: the (key, value) pairs of the cached dict at the given keys, in the
requested order, skipping keys the dict does not hold. -/
def projectKeys {V : Type} (cached : List (CKey × V)) (ks : List CKey) : List (CKey × V) :=
  ks.filterMap (fun k => (lookupA cached k).map (fun v => (k, v)))

/-- What a completed call of Gaussian.calculate_features hands back. -/
inductive CFReturn (V : Type) where
  | fromCache (d : List (CKey × V))
  | fromCachePair (feature_space reference_space : V)
  | computed (d : List (CKey × List (String × List ℝ)))
  | computedPair (d : List (CKey × List (String × List ℝ))) (ref : List (String × List ℝ))
  | retNone

/-- A dump(...) of computed features into the cache file. -/
inductive CacheWrite where
  | featureSpace (d : List (CKey × List (String × List ℝ)))
  | svmPair (d : List (CKey × List (String × List ℝ))) (ref : List (String × List ℝ))

/-- Python enumerate-and-map over a list, carrying the running index. -/
def enumMap {A B : Type} (f : ℕ → A → B) : ℕ → List A → List B
  | _, [] => []
  | i, a :: rest => f i a :: enumMap f (i + 1) rest

/-- The atoms_index_map built at lines 198-204: for each image, the list of
global atom indices range(ini, end) of its atoms. -/
def atomsIndexMap : List ℕ → ℕ → List (List ℕ)
  | [], _ => []
  | c :: cs, ini => (List.range c).map (fun i => i + ini) :: atomsIndexMap cs (ini + c)

/-- Gaussian.stack_features (lines 379-386): the rows of the stacked matrix at
the given global indices. -/
def stack_features (indices : List ℕ) (stacked : List (List ℝ)) : List (List ℝ) :=
  indices.map (fun i => stacked.getD i [])

/-- Gaussian.restack_image for the scaled path (lines 412-450): for image i,
pair each atom symbol with row j of the chunk of the image in the scaled feature
space (the torch.tensor wrapping of the non-svm path carries the same numeric
content and is modelled as the identity). -/
def restack_image_scaled (chunks : List (List (List ℝ))) (i : ℕ)
    (image : CKey × List String) : CKey × List (String × List ℝ) :=
  (image.1, enumMap (fun j s => (s, (chunks.getD i []).getD j [])) 0 image.2)

/-- The svm reference space built from Gaussian.restack_atom (lines 388-410):
the flat list, in image order then atom order, of (symbol, row) with the row
taken from the chunk of the image at the within-image index of the atom. -/
def restackReference (images : List (CKey × List String))
    (chunks : List (List (List ℝ))) : List (String × List ℝ) :=
  (enumMap (fun i image =>
    enumMap (fun j s => (s, (chunks.getD i []).getD j [])) 0 image.2) 0 images).flatten

/-- The compute-and-return part of Gaussian.calculate_features (lines 164-377),
reached when the cache block did not run.  Inputs that stand for external
collaborators: images gives each structure id with its atom symbols in order;
handlerUniqueNone is data.unique_element_symbols is None on the data handler;
preprocessorIsSome is self.preprocessor is not None; afp gives the scheduler
result (the raw feature row) of each global atom task built at lines 200-222
(its neighbor enumeration comes from external ase utilities); fitT and
transformT are the fit and transform of the external preprocessor on the stacked
matrix.  Faithfully modelled failures: when the handler already holds the
unique symbols the local unique_element_symbols is never bound, so line 181
raises UnboundLocalError; when no preprocessor is configured, training raises
UnboundLocalError at del stacked_features (line 269) and inference raises it
at preprocessor.transform(stacked_features) (line 341).  The defaults=False
constructor path relies on a self.GP set by an earlier call (cross-call
object state) and is outside this single-call model, which takes the
constructor default defaults=True. -/
def computePhase (V : Type) (filename : Option String) (images : List (CKey × List String))
    (purpose : String) (svm preprocessorIsSome handlerUniqueNone : Bool)
    (afp : ℕ → List ℝ) (fitT transformT : List (List ℝ) → List (List ℝ)) :
    Except PyErr (CFReturn V × List CacheWrite) :=
  if handlerUniqueNone = false then .error (.unboundLocal "unique_element_symbols")
  else
    let counts := images.map (fun image => image.2.length)
    let results : List (List ℝ) := (List.range counts.sum).map afp
    if purpose = "training" then
      if preprocessorIsSome = false then .error (.unboundLocal "stacked_features")
      else
        let scaledAll := fitT results
        let chunks := (atomsIndexMap counts 0).map (fun idxs => stack_features idxs scaledAll)
        let feature_space := enumMap (restack_image_scaled chunks) 0 images
        if svm then
          let reference_space := restackReference images chunks
          if filename.isSome then
            .ok (.computedPair feature_space reference_space,
              [.svmPair feature_space reference_space])
          else .ok (.computedPair feature_space reference_space, [])
        else
          if filename.isSome then .ok (.computed feature_space, [.featureSpace feature_space])
          else .ok (.computed feature_space, [])
    else if purpose = "inference" then
      if preprocessorIsSome = false then .error (.unboundLocal "stacked_features")
      else
        let scaledAll := transformT results
        let feature_space := images.map (fun image =>
          (image.1, enumMap (fun idx s => (s, scaledAll.getD idx [])) 0 image.2))
        .ok (.computed feature_space, [])
    else .ok (.retNone, [])

/-- Gaussian.calculate_features (src/ml4chem/fingerprints/gaussian.py lines
111-377), one call, with effects made explicit: the returned value together
with the list of dump(...) writes to the features file.  os.path.isfile(None)
raises TypeError, so a None filename aborts at line 140.  When the cache file
exists and overwrite is False the cache block runs on the loaded dict; its
KeyError propagates, and — because line 144 rebinds the local data to the
loaded record, which (modelled from the spec: the cache file is a plain binary
key-value serialization, spec section 6) carries no handler attributes — a
fall-through reaches line 167 and raises AttributeError instead of
recomputing. -/
def calculate_features (V : Type) (filename : Option String) (fileExists overwrite : Bool)
    (cached : List (CKey × V)) (images : List (CKey × List String)) (purpose : String)
    (svm preprocessorIsSome handlerUniqueNone : Bool) (afp : ℕ → List ℝ)
    (fitT transformT : List (List ℝ) → List (List ℝ)) :
    Except PyErr (CFReturn V × List CacheWrite) :=
  match filename with
  | Option.none => .error .typeError
  | Option.some _ =>
    if fileExists && !overwrite then
      match cacheCheckBody cached (images.map Prod.fst) with
      | .ret d => .ok (.fromCache d, [])
      | .retPair a b => .ok (.fromCachePair a b, [])
      | .keyError k => .error (.keyError k)
      | .fallThrough => .error (.attributeError "unique_element_symbols")
    else
      computePhase V filename images purpose svm preprocessorIsSome handlerUniqueNone afp
        fitT transformT

/-- The (j, k) index pairs with j < k that the double loop of calculate_G3 and
calculate_G4 visits, in visiting order. -/
def pairIndices (n : ℕ) : List (ℕ × ℕ) :=
  (List.range n).flatMap (fun j => ((List.range n).drop (j + 1)).map (fun k => (j, k)))

/-- The per-pair factor shared by calculate_G3 and calculate_G4: the angular
term, the exponential in Rij and Rik only, and the two cutoffs in Rij and
Rik.  This is exactly the whole per-pair term of calculate_G4. -/
noncomputable def g4PairTerm (neighborpositions : List Vec3) (Ri : Vec3)
    (gamma zeta eta Rc : ℝ) (cutofffxn : ℝ → ℝ) (j k : ℕ) : ℝ :=
  let Rij_vector := vsub (neighborpositions.getD j default) Ri
  let Rij := norm3 Rij_vector
  let Rik_vector := vsub (neighborpositions.getD k default) Ri
  let Rik := norm3 Rik_vector
  (1 + gamma * (dot3 Rij_vector Rik_vector / Rij / Rik)) ^ zeta
    * Real.exp (-eta * (Rij ^ 2 + Rik ^ 2) / Rc ^ 2)
    * cutofffxn Rij * cutofffxn Rik

/-- The factor of a calculate_G3 per-pair term that calculate_G4 omits: the
Rjk part of the exponential and the cutoff at Rjk. -/
noncomputable def rjkFactor (neighborpositions : List Vec3) (eta Rc : ℝ)
    (cutofffxn : ℝ → ℝ) (j k : ℕ) : ℝ :=
  let Rjk := norm3 (vsub (neighborpositions.getD k default) (neighborpositions.getD j default))
  Real.exp (-eta * Rjk ^ 2 / Rc ^ 2) * cutofffxn Rjk

/-- The per-pair term of calculate_G3 (the body of its double loop for a pair
that passes the element filter), exactly as built in the source. -/
noncomputable def g3PairTerm (neighborpositions : List Vec3) (Ri : Vec3)
    (gamma zeta eta Rc : ℝ) (cutofffxn : ℝ → ℝ) (j k : ℕ) : ℝ :=
  let Rij_vector := vsub (neighborpositions.getD j default) Ri
  let Rij := norm3 Rij_vector
  let Rik_vector := vsub (neighborpositions.getD k default) Ri
  let Rik := norm3 Rik_vector
  let Rjk_vector :=
    vsub (neighborpositions.getD k default) (neighborpositions.getD j default)
  let Rjk := norm3 Rjk_vector
  let cos_theta_ijk := dot3 Rij_vector Rik_vector / Rij / Rik
  let term := (1 + gamma * cos_theta_ijk) ^ zeta
  let term := term * Real.exp (-eta * (Rij ^ 2 + Rik ^ 2 + Rjk ^ 2) / Rc ^ 2)
  let term := term * cutofffxn Rij
  let term := term * cutofffxn Rik
  let term := term * cutofffxn Rjk
  term

/- ===== Helper lemmas ===== -/

/-- A left fold that only adds terms equals the initial value plus the sum of
the terms. -/
theorem foldl_add_shift {A : Type} (f : A → ℝ) (l : List A) (init : ℝ) :
    l.foldl (fun a x => a + f x) init = init + (l.map f).sum := by
  induction l generalizing init with
  | nil => simp
  | cons x xs ih =>
    simp only [List.foldl_cons, List.map_cons, List.sum_cons, ih]
    ring

/-- A guarded accumulating fold equals the initial value plus the sum of the
guarded terms. -/
theorem foldl_ite_add {A : Type} (p : A → Prop) [DecidablePred p] (f : A → ℝ)
    (l : List A) (init : ℝ) :
    l.foldl (fun a x => if p x then a + f x else a) init
      = init + (l.map (fun x => if p x then f x else 0)).sum := by
  induction l generalizing init with
  | nil => simp
  | cons x xs ih =>
    by_cases h : p x
    · simp [h, ih]; ring
    · simp [h, ih]

/-- The sum of a flattened list of lists is the sum of the per-list sums. -/
theorem sum_flatMap_eq {A : Type} (F : A → List ℝ) (l : List A) :
    (l.flatMap F).sum = (l.map (fun j => (F j).sum)).sum := by
  induction l with
  | nil => simp
  | cons x xs ih => simp [List.sum_append, ih]

/-- Two-level guarded accumulating folds flatten to a sum over the nested
index lists. -/
theorem foldl_foldl_ite_add (p : ℕ → ℕ → Prop) [∀ j k, Decidable (p j k)] (f : ℕ → ℕ → ℝ)
    (outer : List ℕ) (inner : ℕ → List ℕ) (init : ℝ) :
    outer.foldl
        (fun acc j => (inner j).foldl (fun a k => if p j k then a + f j k else a) acc) init
      = init + (outer.flatMap (fun j => (inner j).map
          (fun k => if p j k then f j k else 0))).sum := by
  induction outer generalizing init with
  | nil => simp
  | cons j js ih =>
    simp only [List.foldl_cons, List.flatMap_cons, List.sum_append, foldl_ite_add,
      sum_flatMap_eq, foldl_add_shift]
    ring

/-- Summing a guarded term over list indices equals summing over the
symbol/position pairs that pass the guard, when the two lists have equal
length. -/
theorem range_ite_sum_eq_zip_filter (syms : List String) (pos : List Vec3) (cs : String)
    (g : Vec3 → ℝ) (h : syms.length = pos.length) :
    ((List.range pos.length).map
        (fun i => if syms.getD i "" = cs then g (pos.getD i default) else 0)).sum
      = (((syms.zip pos).filter (fun p => decide (p.1 = cs))).map (fun p => g p.2)).sum := by
  induction pos generalizing syms with
  | nil =>
    have hs : syms = [] := List.length_eq_zero.mp (by simpa using h)
    subst hs; simp
  | cons q qs ih =>
    cases syms with
    | nil => simp at h
    | cons s ss =>
      have hlen : ss.length = qs.length := by simpa using h
      rw [List.length_cons, List.range_succ_eq_map]
      simp only [List.map_cons, List.map_map, List.sum_cons]
      have hfun : ((List.range qs.length).map
          ((fun i => if (s :: ss).getD i "" = cs then g ((q :: qs).getD i default) else 0)
            ∘ Nat.succ))
          = ((List.range qs.length).map
            (fun i => if ss.getD i "" = cs then g (qs.getD i default) else 0)) := by
        apply List.map_congr_left
        intro i _
        simp [Function.comp, List.getD_cons_succ]
      rw [hfun, ih ss hlen]
      by_cases hs : s = cs
      · simp [List.zip_cons_cons, List.filter_cons, hs]
      · simp [List.zip_cons_cons, List.filter_cons, hs]

/-- A fold that skips on the guard and otherwise adds equals the initial
value plus the sum of the unguarded terms. -/
theorem foldl_ite_skip {A : Type} (p : A → Prop) [DecidablePred p] (f : A → ℝ)
    (l : List A) (init : ℝ) :
    l.foldl (fun a x => if p x then a else a + f x) init
      = init + (l.map (fun x => if p x then 0 else f x)).sum := by
  induction l generalizing init with
  | nil => simp
  | cons x xs ih =>
    by_cases h : p x
    · simp [h, ih]
    · simp [h, ih]; ring

/-- Two-level folds that skip on the guard flatten to a sum over the nested
index lists. -/
theorem foldl_foldl_ite_skip (p : ℕ → ℕ → Prop) [∀ j k, Decidable (p j k)] (f : ℕ → ℕ → ℝ)
    (outer : List ℕ) (inner : ℕ → List ℕ) (init : ℝ) :
    outer.foldl
        (fun acc j => (inner j).foldl (fun a k => if p j k then a else a + f j k) acc) init
      = init + (outer.flatMap (fun j => (inner j).map
          (fun k => if p j k then 0 else f j k))).sum := by
  induction outer generalizing init with
  | nil => simp
  | cons j js ih =>
    simp only [List.foldl_cons, List.flatMap_cons, List.sum_append, foldl_ite_skip,
      sum_flatMap_eq, foldl_add_shift]
    ring

/-- Splitting the three-distance exponential of a G3 term into the G4 part
and the Rjk part. -/
theorem exp_split (e a b c R : ℝ) :
    Real.exp (-e * (a + b + c) / R) = Real.exp (-e * (a + b) / R) * Real.exp (-e * c / R) := by
  rw [← Real.exp_add]
  congr 1
  ring

/-- Each G3 per-pair term is the corresponding G4 per-pair term times the
omitted Rjk exponential-and-cutoff factor. -/
theorem g3PairTerm_eq_g4_mul_rjk (pos : List Vec3) (Ri : Vec3) (gamma zeta eta Rc : ℝ)
    (cutofffxn : ℝ → ℝ) (j k : ℕ) :
    g3PairTerm pos Ri gamma zeta eta Rc cutofffxn j k
      = g4PairTerm pos Ri gamma zeta eta Rc cutofffxn j k
          * rjkFactor pos eta Rc cutofffxn j k := by
  simp only [g3PairTerm, g4PairTerm, rjkFactor]
  rw [exp_split]
  ring

/-- Summing a function of the index pair over pairIndices equals the nested
flatMap sum over the index lists of the double loop. -/
theorem pairIndices_map_sum (n : ℕ) (F : ℕ × ℕ → ℝ) :
    ((pairIndices n).map F).sum
      = ((List.range n).flatMap
          (fun j => ((List.range n).drop (j + 1)).map (fun k => F (j, k)))).sum := by
  simp [pairIndices, List.map_flatMap, List.map_map, Function.comp_def]

/- ===== Claim theorems ===== -/

/-- Claim C4: for every center atom, neighbor list, target element, eta,
cutoff and cutoff function, calculate_G2 returns the sum over exactly those
neighbors whose element symbol equals the target element of
exp(-eta r^2 / Rc^2) * cutoff(r), with r the center-neighbor distance and
Rc the cutoff radius when normalized is true and 1 otherwise; in particular
it returns 0 on an empty neighbor list. -/
theorem claim_C4_thm (nn : List ℕ) (syms : List String) (pos : List Vec3) (cs : String)
    (eta cutoff : ℝ) (fxn : ℝ → ℝ) (Ri : Vec3) (normalized : Bool)
    (h : syms.length = pos.length) :
    calculate_G2 nn syms pos cs eta cutoff fxn Ri normalized
      = (((syms.zip pos).filter (fun p => decide (p.1 = cs))).map
          (fun p => Real.exp (-eta * norm3 (vsub p.2 Ri) ^ 2
              / (if normalized then cutoff else 1) ^ 2) * fxn (norm3 (vsub p.2 Ri)))).sum
    ∧ calculate_G2 nn [] [] cs eta cutoff fxn Ri normalized = 0 := by
  constructor
  · have h1 : calculate_G2 nn syms pos cs eta cutoff fxn Ri normalized
        = (List.range pos.length).foldl
            (fun feature count =>
              if syms.getD count "" = cs then
                feature + Real.exp (-eta * norm3 (vsub (pos.getD count default) Ri) ^ 2
                    / (if normalized then cutoff else 1) ^ 2)
                  * fxn (norm3 (vsub (pos.getD count default) Ri))
              else feature) 0 := rfl
    rw [h1, foldl_ite_add (fun count => syms.getD count "" = cs)
        (fun count => Real.exp (-eta * norm3 (vsub (pos.getD count default) Ri) ^ 2
            / (if normalized then cutoff else 1) ^ 2)
          * fxn (norm3 (vsub (pos.getD count default) Ri))), zero_add]
    exact range_ite_sum_eq_zip_filter syms pos cs
      (fun v => Real.exp (-eta * norm3 (vsub v Ri) ^ 2
          / (if normalized then cutoff else 1) ^ 2) * fxn (norm3 (vsub v Ri))) h
  · rfl

/-- Witness for claim C4 at a concrete one-neighbor input. -/
theorem claim_C4_witness :
    calculate_G2 [] ["H"] [⟨1, 0, 0⟩] "H" 1 6.5 (fun r => r) ⟨0, 0, 0⟩ true
      = (((["H"].zip [(⟨1, 0, 0⟩ : Vec3)]).filter (fun p => decide (p.1 = "H"))).map
          (fun p => Real.exp (-1 * norm3 (vsub p.2 ⟨0, 0, 0⟩) ^ 2
              / (if true then (6.5 : ℝ) else 1) ^ 2)
            * (fun r => r) (norm3 (vsub p.2 ⟨0, 0, 0⟩)))).sum
    ∧ calculate_G2 [] [] [] "H" 1 6.5 (fun r => r) ⟨0, 0, 0⟩ true = 0 :=
  claim_C4_thm [] ["H"] [⟨1, 0, 0⟩] "H" 1 6.5 (fun r => r) ⟨0, 0, 0⟩ true rfl

/-- Claim C5: calculate_G3 and calculate_G4 run the same double loop over the
same element-filtered neighbor pairs, and for every identical geometry and
parameter set each G3 per-pair term equals the corresponding G4 per-pair term
multiplied by the omitted exp(-eta Rjk^2 / Rc^2) * cutoff(Rjk) factor, so the
two values differ exactly by that factor applied per pair term. -/
theorem claim_C5_thm (nn : List ℕ) (syms : List String) (pos : List Vec3)
    (Gel : List String) (gamma zeta eta cutoff : ℝ) (fxn : ℝ → ℝ) (Ri : Vec3) :
    calculate_G3 nn syms pos Gel gamma zeta eta cutoff fxn Ri
      = (2 : ℝ) ^ (1 - zeta) * ((pairIndices pos.length).map
          (fun jk => if pySorted2 (syms.getD jk.1 "") (syms.getD jk.2 "") = Gel then
              g4PairTerm pos Ri gamma zeta eta cutoff fxn jk.1 jk.2
                * rjkFactor pos eta cutoff fxn jk.1 jk.2
            else 0)).sum
    ∧ calculate_G4 nn syms pos Gel gamma zeta eta cutoff fxn Ri
      = (2 : ℝ) ^ (1 - zeta) * ((pairIndices pos.length).map
          (fun jk => if pySorted2 (syms.getD jk.1 "") (syms.getD jk.2 "") = Gel then
              g4PairTerm pos Ri gamma zeta eta cutoff fxn jk.1 jk.2
            else 0)).sum := by
  constructor
  · have h3 : calculate_G3 nn syms pos Gel gamma zeta eta cutoff fxn Ri
        = ((List.range pos.length).foldl
            (fun feature j => ((List.range pos.length).drop (j + 1)).foldl
              (fun feature k =>
                if pySorted2 (syms.getD j "") (syms.getD k "") ≠ Gel then feature
                else feature + g3PairTerm pos Ri gamma zeta eta cutoff fxn j k)
              feature) 0) * (2 : ℝ) ^ (1 - zeta) := rfl
    rw [h3, foldl_foldl_ite_skip (fun j k => pySorted2 (syms.getD j "") (syms.getD k "") ≠ Gel)
        (fun j k => g3PairTerm pos Ri gamma zeta eta cutoff fxn j k), zero_add,
      pairIndices_map_sum, mul_comm]
    congr 1
    congr 1
    have hfun : (fun j => ((List.range pos.length).drop (j + 1)).map
          (fun k => if pySorted2 (syms.getD j "") (syms.getD k "") ≠ Gel then 0
            else g3PairTerm pos Ri gamma zeta eta cutoff fxn j k))
        = (fun j => ((List.range pos.length).drop (j + 1)).map
          (fun k => if pySorted2 (syms.getD j "") (syms.getD k "") = Gel then
              g4PairTerm pos Ri gamma zeta eta cutoff fxn j k
                * rjkFactor pos eta cutoff fxn j k
            else 0)) := by
      funext j
      apply congrArg (fun f => List.map f (((List.range pos.length).drop (j + 1))))
      funext k
      by_cases hc : pySorted2 (syms.getD j "") (syms.getD k "") = Gel
      · rw [if_neg (not_not_intro hc), if_pos hc]
        exact g3PairTerm_eq_g4_mul_rjk pos Ri gamma zeta eta cutoff fxn j k
      · rw [if_pos hc, if_neg hc]
    rw [hfun]
  · have h4 : calculate_G4 nn syms pos Gel gamma zeta eta cutoff fxn Ri
        = ((List.range pos.length).foldl
            (fun feature j => ((List.range pos.length).drop (j + 1)).foldl
              (fun feature k =>
                if pySorted2 (syms.getD j "") (syms.getD k "") ≠ Gel then feature
                else feature + g4PairTerm pos Ri gamma zeta eta cutoff fxn j k)
              feature) 0) * (2 : ℝ) ^ (1 - zeta) := rfl
    rw [h4, foldl_foldl_ite_skip (fun j k => pySorted2 (syms.getD j "") (syms.getD k "") ≠ Gel)
        (fun j k => g4PairTerm pos Ri gamma zeta eta cutoff fxn j k), zero_add,
      pairIndices_map_sum, mul_comm]
    congr 1
    congr 1
    have hfun : (fun j => ((List.range pos.length).drop (j + 1)).map
          (fun k => if pySorted2 (syms.getD j "") (syms.getD k "") ≠ Gel then 0
            else g4PairTerm pos Ri gamma zeta eta cutoff fxn j k))
        = (fun j => ((List.range pos.length).drop (j + 1)).map
          (fun k => if pySorted2 (syms.getD j "") (syms.getD k "") = Gel then
              g4PairTerm pos Ri gamma zeta eta cutoff fxn j k
            else 0)) := by
      funext j
      apply congrArg (fun f => List.map f (((List.range pos.length).drop (j + 1))))
      funext k
      by_cases hc : pySorted2 (syms.getD j "") (syms.getD k "") = Gel
      · rw [if_neg (not_not_intro hc), if_pos hc]
      · rw [if_pos hc, if_neg hc]
    rw [hfun]

/-- Claim C9: on every input, the calculate_G3 of src/ml4chem and the
calculate_G3 of src/mlchem compute equal values. -/
theorem claim_C9_thm (nn : List ℕ) (syms : List String) (pos : List Vec3)
    (Gel : List String) (gamma zeta eta cutoff : ℝ) (fxn : ℝ → ℝ) (Ri : Vec3) :
    calculate_G3 nn syms pos Gel gamma zeta eta cutoff fxn Ri
      = mlchem.calculate_G3 nn syms pos Gel gamma zeta eta cutoff fxn Ri := rfl

/-- Claim C6 (code bug): evaluating a spec table whose second entry has the
unsupported type tag "G5" does not abort with a configuration error: the call
succeeds and fills the unsupported slot with the value of the previous iteration
(here both slots hold the G2 value 0 of an atom with no neighbors); and when
the unsupported spec comes first, the call fails with UnboundLocalError on
the local variable feature rather than with a descriptive error. -/
theorem claim_C6_failing_eval :
    get_atomic_fingerprint 6.5 (fun r => r) true
        [{ type := "G2", symbol := "H", eta := 1 }, { type := "G5" }] "H" [] [] default true
      = .ok (some "H", [0, 0])
    ∧ get_atomic_fingerprint 6.5 (fun r => r) true
        [{ type := "G5" }] "H" [] [] default true
      = .error (.unboundLocal "feature") := by
  constructor
  · rfl
  · rfl

/-- Claim C7, amended: the eta, zeta and gamma lists supplied to
make_symmetry_functions are ignored — with defaults enabled the table is
always the one built from the built-in default parameters, and with defaults
disabled the table is empty. -/
theorem claim_C7_amended_thm (symbols : List String) (etas zetas gammas : Option (List ℝ))
    (angular_type : String) :
    make_symmetry_functions symbols true etas zetas gammas angular_type
      = make_symmetry_functions symbols true Option.none Option.none Option.none angular_type
    ∧ make_symmetry_functions symbols false etas zetas gammas angular_type = some [] :=
  ⟨rfl, rfl⟩

/-- Counterexample to claim C7 as stated: supplying etas=[42], zetas=[7],
gammas=[9] leaves the table identical to the one built with no parameters
supplied, and the first radial entry keeps the default log-spaced eta 0.05,
which is none of the supplied values. -/
theorem claim_C7_counterexample :
    make_symmetry_functions ["H"] true (some [42]) (some [7]) (some [9]) "G3"
      = make_symmetry_functions ["H"] true Option.none Option.none Option.none "G3"
    ∧ headEta (make_symmetry_functions ["H"] true (some [42]) (some [7]) (some [9]) "G3")
      = some 0.05
    ∧ (0.05 : ℝ) ∉ ([42, 7, 9] : List ℝ) := by
  refine ⟨rfl, ?_, by norm_num⟩
  have h2 : headEta (make_symmetry_functions ["H"] true (some [42]) (some [7]) (some [9]) "G3")
      = some ((10 : ℝ) ^ (Real.logb 10 0.05
          + ((0 : ℕ) : ℝ) * ((Real.logb 10 5.0 - Real.logb 10 0.05) / (((4 : ℕ) : ℝ) - 1)))) :=
    rfl
  have h3 : (10 : ℝ) ^ (Real.logb 10 0.05) = 0.05 :=
    Real.rpow_logb (by norm_num) (by norm_num) (by norm_num)
  rw [h2]
  simp [h3]

/-- A dict lookup returns none exactly when the key is absent. -/
theorem lookupA_eq_none_iff {V : Type} (l : List (CKey × V)) (k : CKey) :
    lookupA l k = Option.none ↔ k ∉ l.map Prod.fst := by
  induction l with
  | nil => simp [lookupA]
  | cons p rest ih =>
    obtain ⟨k1, v⟩ := p
    by_cases h : k1 = k
    · subst h
      simp [lookupA]
    · simp only [lookupA, if_neg h, List.map_cons, List.mem_cons, ih]
      constructor
      · intro hn hor
        rcases hor with hor | hor
        · exact h hor.symm
        · exact hn hor
      · intro hn hmem
        exact hn (Or.inr hmem)

/-- A present key has a value. -/
theorem lookupA_isSome_of_mem {V : Type} {l : List (CKey × V)} {k : CKey}
    (h : k ∈ l.map Prod.fst) : ∃ v, lookupA l k = some v := by
  cases hl : lookupA l k with
  | none => exact absurd ((lookupA_eq_none_iff l k).mp hl) (not_not_intro h)
  | some v => exact ⟨v, rfl⟩

/-- A successful dict lookup returns an entry of the dict. -/
theorem lookupA_mem {V : Type} {l : List (CKey × V)} {k : CKey} {v : V}
    (h : lookupA l k = some v) : (k, v) ∈ l := by
  induction l with
  | nil => simp [lookupA] at h
  | cons p rest ih =>
    obtain ⟨k1, v1⟩ := p
    by_cases hk : k1 = k
    · subst hk
      have hv : lookupA ((k1, v1) :: rest) k1 = some v1 := by simp [lookupA]
      rw [hv] at h
      obtain rfl : v1 = v := Option.some.inj h
      exact List.mem_cons_self _ _
    · simp only [lookupA, if_neg hk] at h
      exact List.mem_cons_of_mem _ (ih h)

/-- Dict lookup across an append. -/
theorem lookupA_append {V : Type} (l1 l2 : List (CKey × V)) (k : CKey) :
    lookupA (l1 ++ l2) k
      = match lookupA l1 k with
        | some v => some v
        | Option.none => lookupA l2 k := by
  induction l1 with
  | nil => simp [lookupA]
  | cons p rest ih =>
    obtain ⟨k1, v1⟩ := p
    by_cases hk : k1 = k
    · subst hk
      simp [lookupA]
    · simp [lookupA, hk, ih]

/-- Inserting an absent key appends the new entry. -/
theorem dictInsert_of_none {V : Type} {l : List (CKey × V)} {k : CKey} (v : V)
    (h : lookupA l k = Option.none) : dictInsert l k v = l ++ [(k, v)] := by
  induction l with
  | nil => rfl
  | cons p rest ih =>
    obtain ⟨k1, v1⟩ := p
    by_cases hk : k1 = k
    · subst hk
      simp [lookupA] at h
    · simp only [lookupA, if_neg hk] at h
      simp [dictInsert, hk, ih h]

/-- filterMap only depends on the values of the function on the list members. -/
theorem filterMap_congr_mem {A B : Type} {l : List A} {f g : A → Option B}
    (h : ∀ x ∈ l, f x = g x) : l.filterMap f = l.filterMap g := by
  induction l with
  | nil => rfl
  | cons x xs ih =>
    rw [List.filterMap_cons, List.filterMap_cons, h x (by simp),
      ih (fun y hy => h y (by simp [hy]))]

/-- projectKeys of a cons whose head is present. -/
theorem projectKeys_cons_some {V : Type} {cached : List (CKey × V)} {k : CKey} {v : V}
    (ks : List CKey) (hv : lookupA cached k = some v) :
    projectKeys cached (k :: ks) = (k, v) :: projectKeys cached ks := by
  simp [projectKeys, List.filterMap_cons, hv]

/-- When every requested key is held, the projection loop returns the
accumulator followed by the projected entries. -/
theorem projectLoop_total {V : Type} (cached : List (CKey × V)) (ks : List CKey)
    (acc : List (CKey × V)) (hnd : ks.Nodup)
    (hsub : ∀ k ∈ ks, k ∈ cached.map Prod.fst)
    (hacc : ∀ k ∈ ks, lookupA acc k = Option.none) :
    projectLoop cached ks acc = CacheOutcome.ret (acc ++ projectKeys cached ks) := by
  induction ks generalizing acc with
  | nil => simp [projectLoop, projectKeys]
  | cons k ks ih =>
    obtain ⟨v, hv⟩ := lookupA_isSome_of_mem (hsub k (List.mem_cons_self _ _))
    rw [List.nodup_cons] at hnd
    have hstep : projectLoop cached (k :: ks) acc
        = projectLoop cached ks (dictInsert acc k v) := by
      simp [projectLoop, hv]
    rw [hstep, dictInsert_of_none v (hacc k (List.mem_cons_self _ _)),
      ih (acc ++ [(k, v)]) hnd.2 (fun x hx => hsub x (List.mem_cons_of_mem _ hx))
        (fun x hx => by
          rw [lookupA_append, hacc x (List.mem_cons_of_mem _ hx)]
          have hxk : ¬(k = x) := fun he => hnd.1 (he ▸ hx)
          simp [lookupA, hxk]),
      projectKeys_cons_some ks hv, List.append_assoc]
    rfl

/-- When some requested key is missing, the projection loop raises KeyError at
the first missing key. -/
theorem projectLoop_miss {V : Type} (cached : List (CKey × V)) (ks : List CKey)
    (acc : List (CKey × V)) (hmiss : ∃ k ∈ ks, lookupA cached k = Option.none) :
    ∃ k, k ∈ ks ∧ lookupA cached k = Option.none
      ∧ projectLoop cached ks acc = CacheOutcome.keyError k := by
  induction ks generalizing acc with
  | nil => simp at hmiss
  | cons k ks ih =>
    cases hk : lookupA cached k with
    | none => exact ⟨k, List.mem_cons_self _ _, hk, by simp [projectLoop, hk]⟩
    | some v =>
      have htail : ∃ x ∈ ks, lookupA cached x = Option.none := by
        obtain ⟨x, hx, hxn⟩ := hmiss
        rcases List.mem_cons.mp hx with rfl | hx2
        · rw [hk] at hxn; exact absurd hxn (by simp)
        · exact ⟨x, hx2, hxn⟩
      obtain ⟨x, hx, hxn, hloop⟩ := ih (dictInsert acc k v) htail
      exact ⟨x, List.mem_cons_of_mem _ hx, hxn, by simp [projectLoop, hk, hloop]⟩

/-- With unique cached keys, projecting the dict onto its own key list
returns the dict itself. -/
theorem projectKeys_self {V : Type} (cached : List (CKey × V))
    (hnd : (cached.map Prod.fst).Nodup) :
    projectKeys cached (cached.map Prod.fst) = cached := by
  induction cached with
  | nil => rfl
  | cons p rest ih =>
    obtain ⟨k, v⟩ := p
    rw [List.map_cons] at hnd ⊢
    rw [List.nodup_cons] at hnd
    have hv : lookupA ((k, v) :: rest) k = some v := by simp [lookupA]
    rw [projectKeys_cons_some _ hv]
    have hcongr : projectKeys ((k, v) :: rest) (rest.map Prod.fst)
        = projectKeys rest (rest.map Prod.fst) := by
      apply filterMap_congr_mem
      intro x hx
      have hxk : ¬(k = x) := fun he => hnd.1 (he ▸ hx)
      simp [lookupA, hxk]
    rw [hcongr, ih hnd.2]

/-- The keys of the projection are the requested keys, in order, when all are
held. -/
theorem projectKeys_keys {V : Type} (cached : List (CKey × V)) (ks : List CKey)
    (hsub : ∀ k ∈ ks, k ∈ cached.map Prod.fst) :
    (projectKeys cached ks).map Prod.fst = ks := by
  induction ks with
  | nil => rfl
  | cons k ks ih =>
    obtain ⟨v, hv⟩ := lookupA_isSome_of_mem (hsub k (List.mem_cons_self _ _))
    rw [projectKeys_cons_some ks hv, List.map_cons,
      ih (fun x hx => hsub x (List.mem_cons_of_mem _ hx))]

/-- Every projected entry is an entry of the cached dict. -/
theorem projectKeys_sub {V : Type} (cached : List (CKey × V)) (ks : List CKey) :
    ∀ p ∈ projectKeys cached ks, p ∈ cached := by
  intro p hp
  obtain ⟨k, _, hk⟩ := List.mem_filterMap.mp hp
  cases hl : lookupA cached k with
  | none =>
    rw [hl] at hk
    exact absurd hk (by simp)
  | some v =>
    rw [hl] at hk
    have hpv : (k, v) = p := by simpa using hk
    subst hpv
    exact lookupA_mem hl

/-- A nonempty requested key list that is a subset of the cached keys makes
the cache-check block return exactly the projected cached entries. -/
theorem cacheCheckBody_subset {V : Type} (cached : List (CKey × V)) (ks : List CKey)
    (hne : ks ≠ []) (hndk : ks.Nodup) (hndc : (cached.map Prod.fst).Nodup)
    (hsub : ∀ k ∈ ks, k ∈ cached.map Prod.fst) :
    cacheCheckBody cached ks = CacheOutcome.ret (projectKeys cached ks) := by
  simp only [cacheCheckBody]
  by_cases heq : ks = cached.map Prod.fst
  · rw [if_pos heq, heq, projectKeys_self cached hndc]
  · rw [if_neg heq]
    have hk0 : ∃ k0, k0 ∈ ks := by
      cases ks with
      | nil => exact absurd rfl hne
      | cons a l => exact ⟨a, List.mem_cons_self _ _⟩
    obtain ⟨k0, hk0⟩ := hk0
    have hany : (cached.map Prod.fst).any (fun i => decide (i ∈ ks)) = true :=
      List.any_eq_true.mpr ⟨k0, hsub k0 hk0, by simpa using hk0⟩
    rw [if_pos hany]
    exact projectLoop_total cached ks [] hndk hsub (fun k _ => rfl)

/-- A requested key list that overlaps the cached keys but contains a missing
key makes the cache-check block raise KeyError at a missing key. -/
theorem cacheCheckBody_missing {V : Type} (cached : List (CKey × V)) (ks : List CKey)
    (hov : ∃ k ∈ cached.map Prod.fst, k ∈ ks)
    (hmiss : ∃ k ∈ ks, k ∉ cached.map Prod.fst) :
    ∃ k, k ∈ ks ∧ k ∉ cached.map Prod.fst
      ∧ cacheCheckBody cached ks = CacheOutcome.keyError k := by
  have heq : ks ≠ cached.map Prod.fst := by
    obtain ⟨k, hk, hkn⟩ := hmiss
    intro he
    exact hkn (he ▸ hk)
  have hany : (cached.map Prod.fst).any (fun i => decide (i ∈ ks)) = true := by
    obtain ⟨k, hk1, hk2⟩ := hov
    exact List.any_eq_true.mpr ⟨k, hk1, by simpa using hk2⟩
  obtain ⟨k, hk, hkn, hloop⟩ := projectLoop_miss cached ks []
    (by
      obtain ⟨k, hk, hkn⟩ := hmiss
      exact ⟨k, hk, (lookupA_eq_none_iff cached k).mpr hkn⟩)
  refine ⟨k, hk, (lookupA_eq_none_iff cached k).mp hkn, ?_⟩
  simp only [cacheCheckBody]
  rw [if_neg heq, if_pos hany]
  exact hloop

/-- A cached record holding exactly the two reserved kernel-method keys, none
of which is requested, makes the cache-check block return the stored pair. -/
theorem cacheCheckBody_svmPair {V : Type} (fsp rsp : V) (ks : List CKey)
    (h : ∀ k ∈ ks, k ≠ CKey.bytes "feature_space" ∧ k ≠ CKey.bytes "reference_space") :
    cacheCheckBody [(CKey.bytes "feature_space", fsp), (CKey.bytes "reference_space", rsp)] ks
      = CacheOutcome.retPair fsp rsp := by
  simp only [cacheCheckBody, List.map_cons, List.map_nil]
  have heq : ¬(ks = [CKey.bytes "feature_space", CKey.bytes "reference_space"]) := by
    intro he
    have hm : CKey.bytes "feature_space" ∈ ks := by
      rw [he]
      exact List.mem_cons_self _ _
    exact (h _ hm).1 rfl
  rw [if_neg heq]
  have hany : ([CKey.bytes "feature_space", CKey.bytes "reference_space"] : List CKey).any
      (fun i => decide (i ∈ ks)) = false := by
    have h1 : CKey.bytes "feature_space" ∉ ks := fun hm => (h _ hm).1 rfl
    have h2 : CKey.bytes "reference_space" ∉ ks := fun hm => (h _ hm).2 rfl
    simp [h1, h2]
  rw [if_neg (by rw [hany]; exact Bool.false_ne_true)]
  rw [if_pos (show svm_cache_keys
      = [CKey.bytes "feature_space", CKey.bytes "reference_space"] from rfl)]
  rfl

/-- With an existing cache file and overwrite False, calculate_features is the
cache-check block followed by the AttributeError of the shadowed data local on
fall-through. -/
theorem calculate_features_cacheRun (V : Type) (f : String)
    (cached : List (CKey × V)) (images : List (CKey × List String)) (purpose : String)
    (svm pre hU : Bool) (afp : ℕ → List ℝ) (fitT transformT : List (List ℝ) → List (List ℝ)) :
    calculate_features V (some f) true false cached images purpose svm pre hU afp
        fitT transformT
      = match cacheCheckBody cached (images.map Prod.fst) with
        | .ret d => .ok (.fromCache d, [])
        | .retPair a b => .ok (.fromCachePair a b, [])
        | .keyError k => .error (.keyError k)
        | .fallThrough => .error (.attributeError "unique_element_symbols") := rfl

/-- Claim C2, amended with a nonempty request: when the cache file exists,
overwrite is False, and the nonempty requested id set is equal to or a subset
of the id set of the cached record, calculate_features returns from the cache
block (no fingerprint is computed, no write happens, and the result does not
depend on the computation inputs) exactly the cached entries for the
requested ids, in request order, each taken verbatim from the cache. -/
theorem claim_C2_thm (V : Type) (f : String) (cached : List (CKey × V))
    (images : List (CKey × List String)) (purpose : String) (svm pre hU : Bool)
    (afp : ℕ → List ℝ) (fitT transformT : List (List ℝ) → List (List ℝ))
    (hne : images ≠ []) (hndk : (images.map Prod.fst).Nodup)
    (hndc : (cached.map Prod.fst).Nodup)
    (hsub : ∀ k ∈ images.map Prod.fst, k ∈ cached.map Prod.fst) :
    calculate_features V (some f) true false cached images purpose svm pre hU afp
        fitT transformT
      = .ok (CFReturn.fromCache (projectKeys cached (images.map Prod.fst)), [])
    ∧ (projectKeys cached (images.map Prod.fst)).map Prod.fst = images.map Prod.fst
    ∧ ∀ p ∈ projectKeys cached (images.map Prod.fst), p ∈ cached := by
  have hne2 : images.map Prod.fst ≠ [] := by
    cases images with
    | nil => exact absurd rfl hne
    | cons a l => simp
  refine ⟨?_, projectKeys_keys cached _ hsub, projectKeys_sub cached _⟩
  rw [calculate_features_cacheRun, cacheCheckBody_subset cached _ hne2 hndk hndc hsub]

/-- Witness for claim C2: a cache for ids A and B served a request for B
alone. -/
theorem claim_C2_witness :
    calculate_features ℕ (some "fingerprints.db") true false
        [(CKey.str "A", 1), (CKey.str "B", 2)] [(CKey.str "B", [])] "training"
        false true true (fun _ => []) id id
      = .ok (CFReturn.fromCache (projectKeys [(CKey.str "A", 1), (CKey.str "B", 2)]
          ([(CKey.str "B", ([] : List String))].map Prod.fst)), [])
    ∧ (projectKeys [(CKey.str "A", 1), (CKey.str "B", 2)]
        ([(CKey.str "B", ([] : List String))].map Prod.fst)).map Prod.fst
      = [(CKey.str "B", ([] : List String))].map Prod.fst
    ∧ ∀ p ∈ projectKeys [(CKey.str "A", 1), (CKey.str "B", 2)]
        ([(CKey.str "B", ([] : List String))].map Prod.fst),
        p ∈ [(CKey.str "A", 1), (CKey.str "B", 2)] :=
  claim_C2_thm ℕ "fingerprints.db" [(CKey.str "A", 1), (CKey.str "B", 2)]
    [(CKey.str "B", [])] "training" false true true (fun _ => []) id id
    (by decide) (by decide) (by decide) (by decide)

/-- Counterexample to claim C2 as stated: the empty request is a subset of
the cached id set {A}, yet the call neither returns the cached entries for
the requested ids nor completes: the cache block falls through and line 167
raises AttributeError, because the local data was rebound to the loaded
record. -/
theorem claim_C2_counterexample :
    calculate_features ℕ (some "fingerprints.db") true false [(CKey.str "A", 1)] []
        "training" false true true (fun _ => []) id id
      = .error (PyErr.attributeError "unique_element_symbols")
    ∧ ∀ k ∈ ([] : List CKey), k ∈ ([(CKey.str "A", 1)].map Prod.fst) :=
  ⟨rfl, by simp⟩

/-- Claim C1, amended: when the cache file exists, overwrite is False, and the
requested id set overlaps the cached ids but contains at least one id absent
from the cache, the call does not silently return only cached entries — but
nothing is recomputed either: the projection loop raises KeyError at a
missing requested id and the call aborts. -/
theorem claim_C1_amended_thm (V : Type) (f : String) (cached : List (CKey × V))
    (images : List (CKey × List String)) (purpose : String) (svm pre hU : Bool)
    (afp : ℕ → List ℝ) (fitT transformT : List (List ℝ) → List (List ℝ))
    (hov : ∃ k ∈ cached.map Prod.fst, k ∈ images.map Prod.fst)
    (hmiss : ∃ k ∈ images.map Prod.fst, k ∉ cached.map Prod.fst) :
    ∃ k, k ∈ images.map Prod.fst ∧ k ∉ cached.map Prod.fst
      ∧ calculate_features V (some f) true false cached images purpose svm pre hU afp
          fitT transformT
        = .error (PyErr.keyError k) := by
  obtain ⟨k, hk, hkn, hbody⟩ := cacheCheckBody_missing cached (images.map Prod.fst) hov hmiss
  refine ⟨k, hk, hkn, ?_⟩
  rw [calculate_features_cacheRun, hbody]

/-- Witness for the amended claim C1 theorem: cache holding A, request A and X. -/
theorem claim_C1_witness :
    ∃ k, k ∈ ([(CKey.str "A", ["H"]), (CKey.str "X", ["H"])].map Prod.fst)
      ∧ k ∉ ([(CKey.str "A", 1)].map Prod.fst)
      ∧ calculate_features ℕ (some "fingerprints.db") true false [(CKey.str "A", 1)]
          [(CKey.str "A", ["H"]), (CKey.str "X", ["H"])] "training" false true true
          (fun _ => []) id id
        = .error (PyErr.keyError k) :=
  claim_C1_amended_thm ℕ "fingerprints.db" [(CKey.str "A", 1)]
    [(CKey.str "A", ["H"]), (CKey.str "X", ["H"])] "training" false true true
    (fun _ => []) id id (by decide) (by decide)

/-- Counterexample to claim C1 as stated: for the cache {A} and the request
[A, X] (overlapping, with X missing) the call raises KeyError at X — the
missing id is not recomputed, no result is returned at all. -/
theorem claim_C1_counterexample :
    calculate_features ℕ (some "fingerprints.db") true false [(CKey.str "A", 1)]
        [(CKey.str "A", ["H"]), (CKey.str "X", ["H"])] "training" false true true
        (fun _ => []) id id
      = .error (PyErr.keyError (CKey.str "X"))
    ∧ CKey.str "A" ∈ ([(CKey.str "A", 1)].map Prod.fst)
    ∧ CKey.str "X" ∉ ([(CKey.str "A", 1)].map Prod.fst) :=
  ⟨rfl, by decide, by decide⟩

/-- Claim C10: when the cache file exists with exactly the two reserved keys
feature_space and reference_space and no requested structure id equals either
reserved key, calculate_features returns the cached pair — for every value of
the svm argument, which the cache block never reads. -/
theorem claim_C10_thm (V : Type) (fsp rsp : V) (f : String)
    (images : List (CKey × List String)) (purpose : String) (svm pre hU : Bool)
    (afp : ℕ → List ℝ) (fitT transformT : List (List ℝ) → List (List ℝ))
    (h : ∀ k ∈ images.map Prod.fst,
      k ≠ CKey.bytes "feature_space" ∧ k ≠ CKey.bytes "reference_space") :
    calculate_features V (some f) true false
        [(CKey.bytes "feature_space", fsp), (CKey.bytes "reference_space", rsp)] images
        purpose svm pre hU afp fitT transformT
      = .ok (CFReturn.fromCachePair fsp rsp, []) := by
  rw [calculate_features_cacheRun, cacheCheckBody_svmPair fsp rsp _ h]

/-- Witness for claim C10, at svm = false in particular. -/
theorem claim_C10_witness :
    calculate_features ℕ (some "fingerprints.db") true false
        [(CKey.bytes "feature_space", 1), (CKey.bytes "reference_space", 2)]
        [(CKey.str "A", ["H"])] "training" false true true (fun _ => []) id id
      = .ok (CFReturn.fromCachePair 1 2, []) :=
  claim_C10_thm ℕ 1 2 "fingerprints.db" [(CKey.str "A", ["H"])] "training" false true true
    (fun _ => []) id id (by decide)

/-- Claim C3 (code bug): a training call with no preprocessor configured does
not return a per-atom feature space at all — it fails with UnboundLocalError
at del stacked_features (line 269), which also makes the no-preprocessor
restack fallback of lines 303-310 unreachable; with a preprocessor configured
the same call returns, for each structure id, exactly one (symbol, vector)
entry per atom in the atom order of the structure. -/
theorem claim_C3_failing_eval :
    calculate_features ℕ (some "fingerprints.db") false false []
        [(CKey.str "img1", ["H"])] "training" false false true (fun _ => [0]) id id
      = .error (PyErr.unboundLocal "stacked_features")
    ∧ calculate_features ℕ (some "fingerprints.db") false false []
        [(CKey.str "img1", ["H", "O"])] "training" false true true (fun _ => [0]) id id
      = .ok (CFReturn.computed [(CKey.str "img1", [("H", [0]), ("O", [0])])],
          [CacheWrite.featureSpace [(CKey.str "img1", [("H", [0]), ("O", [0])])]]) := by
  constructor
  · rfl
  · rfl

/-- The write behaviour of the compute phase: writes imply training; an
inference call writes nothing; a training call that returns a computed
feature space (or pair) has written exactly that result. -/
theorem computePhase_writes {V : Type} (f : String) (images : List (CKey × List String))
    (purpose : String) (svm pre hU : Bool) (afp : ℕ → List ℝ)
    (fitT transformT : List (List ℝ) → List (List ℝ))
    (ret : CFReturn V) (writes : List CacheWrite)
    (hres : computePhase V (some f) images purpose svm pre hU afp fitT transformT
      = .ok (ret, writes)) :
    (writes ≠ [] → purpose = "training")
    ∧ (purpose = "inference" → writes = [])
    ∧ (∀ d, purpose = "training" → ret = CFReturn.computed d
        → writes = [CacheWrite.featureSpace d])
    ∧ (∀ d r, ret = CFReturn.computedPair d r → writes = [CacheWrite.svmPair d r])
    ∧ (∀ d, ret = CFReturn.fromCache d → writes = [])
    ∧ (∀ a b, ret = CFReturn.fromCachePair a b → writes = []) := by
  simp only [computePhase, Option.isSome_some] at hres
  split at hres
  · exact absurd hres (by simp)
  · split at hres
    · rename_i hp
      split at hres
      · exact absurd hres (by simp)
      · split at hres
        · simp only [if_true, Except.ok.injEq, Prod.mk.injEq] at hres
          obtain ⟨hr, hw⟩ := hres
          subst hr
          subst hw
          exact ⟨fun _ => hp, fun h2 => absurd (hp.symm.trans h2) (by decide),
            fun d2 _ he => CFReturn.noConfusion he,
            fun d2 r2 he => by
              injection he with e1 e2
              subst e1
              subst e2
              rfl,
            fun d2 he => CFReturn.noConfusion he,
            fun a2 b2 he => CFReturn.noConfusion he⟩
        · simp only [if_true, Except.ok.injEq, Prod.mk.injEq] at hres
          obtain ⟨hr, hw⟩ := hres
          subst hr
          subst hw
          exact ⟨fun _ => hp, fun h2 => absurd (hp.symm.trans h2) (by decide),
            fun d2 _ he => by
              injection he with e1
              subst e1
              rfl,
            fun d2 r2 he => CFReturn.noConfusion he,
            fun d2 he => CFReturn.noConfusion he,
            fun a2 b2 he => CFReturn.noConfusion he⟩
    · rename_i hnp
      split at hres
      · split at hres
        · exact absurd hres (by simp)
        · simp only [Except.ok.injEq, Prod.mk.injEq] at hres
          obtain ⟨hr, hw⟩ := hres
          subst hr
          subst hw
          exact ⟨fun h1 => absurd rfl h1, fun _ => rfl,
            fun d2 hptr _ => absurd hptr hnp,
            fun d2 r2 he => CFReturn.noConfusion he,
            fun d2 he => CFReturn.noConfusion he,
            fun a2 b2 he => CFReturn.noConfusion he⟩
      · simp only [Except.ok.injEq, Prod.mk.injEq] at hres
        obtain ⟨hr, hw⟩ := hres
        subst hr
        subst hw
        exact ⟨fun h1 => absurd rfl h1, fun h2 => rfl,
          fun d2 hptr _ => absurd hptr hnp,
          fun d2 r2 he => CFReturn.noConfusion he,
          fun d2 he => CFReturn.noConfusion he,
          fun a2 b2 he => CFReturn.noConfusion he⟩

/-- Claim C8: calculate_features persists to the cache file only for the
training purpose — every write implies purpose training, an inference call
never writes, a completing training call that returns computed fingerprints
has written exactly that result, and cache-hit returns write nothing. -/
theorem claim_C8_thm (V : Type) (filename : Option String) (fileExists overwrite : Bool)
    (cached : List (CKey × V)) (images : List (CKey × List String)) (purpose : String)
    (svm pre hU : Bool) (afp : ℕ → List ℝ) (fitT transformT : List (List ℝ) → List (List ℝ))
    (ret : CFReturn V) (writes : List CacheWrite)
    (hres : calculate_features V filename fileExists overwrite cached images purpose svm pre
        hU afp fitT transformT = .ok (ret, writes)) :
    (writes ≠ [] → purpose = "training")
    ∧ (purpose = "inference" → writes = [])
    ∧ (∀ d, purpose = "training" → ret = CFReturn.computed d
        → writes = [CacheWrite.featureSpace d])
    ∧ (∀ d r, ret = CFReturn.computedPair d r → writes = [CacheWrite.svmPair d r])
    ∧ (∀ d, ret = CFReturn.fromCache d → writes = [])
    ∧ (∀ a b, ret = CFReturn.fromCachePair a b → writes = []) := by
  cases filename with
  | none =>
    simp only [calculate_features] at hres
    exact absurd hres (by simp)
  | some f =>
    simp only [calculate_features] at hres
    cases hfe : fileExists && !overwrite with
    | false =>
      rw [hfe] at hres
      simp only [Bool.false_eq_true, if_false] at hres
      exact computePhase_writes f images purpose svm pre hU afp fitT transformT ret writes hres
    | true =>
      rw [hfe] at hres
      simp only [if_true] at hres
      cases hcc : cacheCheckBody cached (images.map Prod.fst) with
      | ret d =>
        rw [hcc] at hres
        simp only [Except.ok.injEq, Prod.mk.injEq] at hres
        obtain ⟨hr, hw⟩ := hres
        subst hr
        subst hw
        exact ⟨fun h1 => absurd rfl h1, fun _ => rfl,
          fun d2 _ he => CFReturn.noConfusion he,
          fun d2 r2 he => CFReturn.noConfusion he,
          fun d2 _ => rfl,
          fun a2 b2 he => CFReturn.noConfusion he⟩
      | retPair a b =>
        rw [hcc] at hres
        simp only [Except.ok.injEq, Prod.mk.injEq] at hres
        obtain ⟨hr, hw⟩ := hres
        subst hr
        subst hw
        exact ⟨fun h1 => absurd rfl h1, fun _ => rfl,
          fun d2 _ he => CFReturn.noConfusion he,
          fun d2 r2 he => CFReturn.noConfusion he,
          fun d2 he => CFReturn.noConfusion he,
          fun a2 b2 _ => rfl⟩
      | keyError k =>
        rw [hcc] at hres
        exact absurd hres (by simp)
      | fallThrough =>
        rw [hcc] at hres
        exact absurd hres (by simp)

/-- Witness for claim C8: a concrete completing inference call computes a
feature space and writes nothing. -/
theorem claim_C8_witness :
    (([] : List CacheWrite) ≠ [] → ("inference" : String) = "training")
    ∧ (("inference" : String) = "inference" → ([] : List CacheWrite) = [])
    ∧ (∀ d, ("inference" : String) = "training"
        → (CFReturn.computed [(CKey.str "A", [("H", [0])])] : CFReturn ℕ)
            = CFReturn.computed d
        → ([] : List CacheWrite) = [CacheWrite.featureSpace d])
    ∧ (∀ d r, (CFReturn.computed [(CKey.str "A", [("H", [0])])] : CFReturn ℕ)
          = CFReturn.computedPair d r
        → ([] : List CacheWrite) = [CacheWrite.svmPair d r])
    ∧ (∀ d, (CFReturn.computed [(CKey.str "A", [("H", [0])])] : CFReturn ℕ)
          = CFReturn.fromCache d
        → ([] : List CacheWrite) = [])
    ∧ (∀ a b, (CFReturn.computed [(CKey.str "A", [("H", [0])])] : CFReturn ℕ)
          = CFReturn.fromCachePair a b
        → ([] : List CacheWrite) = []) :=
  claim_C8_thm ℕ (some "fingerprints.db") false false [] [(CKey.str "A", ["H"])]
    "inference" false true true (fun _ => [0]) id id
    (CFReturn.computed [(CKey.str "A", [("H", [0])])]) [] rfl
